import Mathlib

/-!
Verification of the geometry-collection container from
src/geo-types/src/geometry_collection.rs.

The Rust type is a newtype over a vector of tagged geometry values:
  pub struct GeometryCollection<T>(pub Vec<Geometry<T>>)
The Geometry<T> element type is external to the file, and the container
delegates everything (equality, conversion) to it, so the embedding is
parameterized over an abstract element type G standing in for Geometry<T>
and, where a conversion is involved, an abstract source type IG with a
conversion function standing in for the Into<Geometry<T>> bound.

Vec<Geometry<T>> is embedded as List G.  A Rust index panic (out of
bounds) is embedded as the Option value none; the operations are
otherwise total.
-/

namespace GeoTypes

/-- Embedding of the Rust newtype struct GeometryCollection<T>(pub Vec<Geometry<T>>);
the element type G stands for the external Geometry<T>. -/
structure GeometryCollection (G : Type) where
  geoms : List G
deriving DecidableEq, Repr

namespace GeometryCollection

variable {G IG : Type}

/-- Embedding of GeometryCollection::new: returns the empty collection. -/
def new : GeometryCollection G := ⟨[]⟩

/-- Embedding of GeometryCollection::len: delegates to Vec::len. -/
def len (c : GeometryCollection G) : Nat := c.geoms.length

/-- Embedding of GeometryCollection::is_empty: delegates to Vec::is_empty. -/
def is_empty (c : GeometryCollection G) : Bool := c.geoms.isEmpty

/-- Embedding of the From<IG> impl (construct-from-one): wraps the converted
value as the sole element; conv stands for the Into<Geometry<T>> conversion. -/
def fromOne (conv : IG → G) (x : IG) : GeometryCollection G := ⟨[conv x]⟩

/-- Embedding of the FromIterator<IG> impl (construct-from-iterable): converts
each element of the input sequence in iteration order and collects. -/
def fromIter (conv : IG → G) (s : List IG) : GeometryCollection G :=
  ⟨s.map conv⟩

/-- Embedding of the Index impl (index-read): delegates to Vec indexing, which
panics out of bounds; the panic is embedded as none. -/
def indexRead (c : GeometryCollection G) (i : Nat) : Option G :=
  c.geoms.get? i

/-- Embedding of assignment through the IndexMut impl (index-write): obtains
the mutable reference to position i (panicking, i.e. none, when out of
bounds) and stores v through it. -/
def indexWrite (c : GeometryCollection G) (i : Nat) (v : G) :
    Option (GeometryCollection G) :=
  if i < c.geoms.length then some ⟨c.geoms.set i v⟩ else none

end GeometryCollection

/-- Embedding of the element-wise Vec/slice equality that the derived
PartialEq of GeometryCollection delegates to; eqG stands for the external
equality of the tagged geometry value type Geometry<T>. -/
def listEq (eqG : G → G → Bool) : List G → List G → Bool
  | [], [] => true
  | x :: xs, y :: ys => eqG x y && listEq eqG xs ys
  | _, _ => false

/-- Embedding of the derived PartialEq on GeometryCollection: a newtype over
one Vec field compares equal exactly when the inner vectors do. -/
def GeometryCollection.eq (eqG : G → G → Bool)
    (a b : GeometryCollection G) : Bool :=
  listEq eqG a.geoms b.geoms

/-- Embedding of the derived Clone on GeometryCollection: a field-wise deep
copy, which in the value model reproduces the value itself. -/
def GeometryCollection.clone (c : GeometryCollection G) :
    GeometryCollection G := ⟨c.geoms⟩

/-- Embedding of the consuming-iterator helper struct IntoIteratorHelper<T>,
holding the state of the underlying vec::IntoIter (the elements not yet
yielded, front first). -/
structure IntoIteratorHelper (G : Type) where
  iter : List G

/-- Embedding of Iterator::next for IntoIteratorHelper: yields the front
remaining element and the advanced iterator, or none when exhausted. -/
def IntoIteratorHelper.next (h : IntoIteratorHelper G) :
    Option (G × IntoIteratorHelper G) :=
  match h.iter with
  | [] => none
  | x :: xs => some (x, ⟨xs⟩)

/-- Embedding of the IntoIterator impl for GeometryCollection (by value):
consumes the collection, iterating its elements. -/
def GeometryCollection.intoIter (c : GeometryCollection G) :
    IntoIteratorHelper G :=
  ⟨c.geoms⟩

/-- Repeatedly calls IntoIteratorHelper.next until exhaustion, returning the
yielded elements in yield order. -/
def IntoIteratorHelper.drain (h : IntoIteratorHelper G) : List G :=
  match hn : h.next with
  | none => []
  | some (x, h') => x :: h'.drain
termination_by h.iter.length
decreasing_by
  simp only [IntoIteratorHelper.next] at hn
  cases he : h.iter with
  | nil => rw [he] at hn; exact absurd hn (by simp)
  | cons y ys =>
    rw [he] at hn
    simp only [Option.some.injEq, Prod.mk.injEq] at hn
    rw [← hn.2]
    simp [he]

/-- Embedding of the borrowing-iterator helper struct IterHelper<'a, T>,
holding the state of the underlying slice iterator (references embedded as
the referenced values, not yet yielded, front first). -/
structure IterHelper (G : Type) where
  iter : List G

/-- Embedding of Iterator::next for IterHelper: yields a reference to the
front remaining element, or none when exhausted. -/
def IterHelper.next (h : IterHelper G) : Option (G × IterHelper G) :=
  match h.iter with
  | [] => none
  | x :: xs => some (x, ⟨xs⟩)

/-- Embedding of GeometryCollection::iter (the IntoIterator impl for a shared
reference): borrows the collection, iterating references to its elements;
the collection itself is untouched, which the pure embedding reflects by
iter being a function of the collection value. -/
def GeometryCollection.iter (c : GeometryCollection G) : IterHelper G :=
  ⟨c.geoms⟩

/-- Repeatedly calls IterHelper.next until exhaustion, returning the yielded
references in yield order. -/
def IterHelper.collect (h : IterHelper G) : List G :=
  match hn : h.next with
  | none => []
  | some (x, h') => x :: h'.collect
termination_by h.iter.length
decreasing_by
  simp only [IterHelper.next] at hn
  cases he : h.iter with
  | nil => rw [he] at hn; exact absurd hn (by simp)
  | cons y ys =>
    rw [he] at hn
    simp only [Option.some.injEq, Prod.mk.injEq] at hn
    rw [← hn.2]
    simp [he]

/-- Embedding of the mutable-iterator helper struct IterMutHelper<'a, T>, as
a zipper over the borrowed vector: done holds the elements already yielded
(their current values, possibly written through the yielded references),
iter holds the suffix the underlying slice iterator has not yielded yet. -/
structure IterMutHelper (G : Type) where
  done : List G
  iter : List G

/-- Embedding of GeometryCollection::iter_mut (the IntoIterator impl for a
mutable reference): mutably borrows the collection, its whole element
sequence still to be yielded. -/
def GeometryCollection.iter_mut (c : GeometryCollection G) :
    IterMutHelper G :=
  ⟨[], c.geoms⟩

/-- Embedding of one step of mutable iteration in which the caller assigns v
through the yielded mutable reference: next yields a reference to the front
remaining element (none when exhausted), and the assignment replaces that
element with v. -/
def IterMutHelper.nextAssign (h : IterMutHelper G) (v : G) :
    Option (IterMutHelper G) :=
  match h.iter with
  | [] => none
  | _ :: xs => some ⟨h.done ++ [v], xs⟩

/-- Collection state seen through the mutable borrow: the already-yielded
prefix followed by the not-yet-yielded suffix. -/
def IterMutHelper.state (h : IterMutHelper G) : GeometryCollection G :=
  ⟨h.done ++ h.iter⟩

/-- Runs mutable iteration, assigning the replacement values in order
through the successively yielded references (stopping if next is exhausted),
and returns the collection state left behind by the traversal. -/
def IterMutHelper.runAssign (h : IterMutHelper G) :
    List G → GeometryCollection G
  | [] => h.state
  | v :: vs =>
    match h.nextAssign v with
    | none => h.state
    | some h' => h'.runAssign vs

/-- Sequence of index-write calls c[i] = v, c[i+1] = v_next, ... at
consecutive positions starting from i, each through indexWrite; fails (none)
exactly when some write is out of bounds. -/
def GeometryCollection.writeSeqFrom (c : GeometryCollection G) (i : Nat) :
    List G → Option (GeometryCollection G)
  | [] => some c
  | v :: vs =>
    match c.indexWrite i v with
    | none => none
    | some c' => c'.writeSeqFrom (i + 1) vs

/-! Helper lemmas shared by the claim theorems. -/

/-- Draining the consuming iterator returns exactly the underlying list. -/
lemma IntoIteratorHelper.drain_mk (l : List G) :
    IntoIteratorHelper.drain ⟨l⟩ = l := by
  induction l with
  | nil => rw [IntoIteratorHelper.drain]; rfl
  | cons x xs ih => rw [IntoIteratorHelper.drain]; simpa [IntoIteratorHelper.next] using ih

/-- Collecting the borrowing iterator returns exactly the underlying list. -/
lemma IterHelper.collect_mk (l : List G) :
    IterHelper.collect ⟨l⟩ = l := by
  induction l with
  | nil => rw [IterHelper.collect]; rfl
  | cons x xs ih => rw [IterHelper.collect]; simpa [IterHelper.next] using ih

/-- Setting the element just past a prefix replaces the head of the suffix. -/
lemma set_append_cons (pre : List G) (x v : G) (xs : List G) :
    (pre ++ x :: xs).set pre.length v = pre ++ v :: xs := by
  induction pre with
  | nil => rfl
  | cons a l ih => simp [List.set, ih]

/-- Running mutable iteration with exactly as many replacement values as
remaining elements replaces the remaining suffix by the replacement list. -/
lemma IterMutHelper.runAssign_full (done : List G) :
    ∀ (rest vs : List G), vs.length = rest.length →
      IterMutHelper.runAssign ⟨done, rest⟩ vs = ⟨done ++ vs⟩ := by
  intro rest
  induction rest generalizing done with
  | nil =>
    intro vs hv
    rw [List.length_nil, List.length_eq_zero] at hv
    subst hv
    simp [IterMutHelper.runAssign, IterMutHelper.state]
  | cons x xs ih =>
    intro vs hv
    cases vs with
    | nil => simp at hv
    | cons v vs' =>
      simp only [List.length_cons, Nat.succ.injEq] at hv
      rw [IterMutHelper.runAssign]
      simp only [IterMutHelper.nextAssign]
      rw [ih (done ++ [v]) vs' hv]
      simp

/-- Writing a replacement list at consecutive indices starting just past a
prefix replaces the equally long remaining suffix by the replacement list. -/
lemma GeometryCollection.writeSeqFrom_full (pre : List G) :
    ∀ (rest vs : List G), vs.length = rest.length →
      GeometryCollection.writeSeqFrom ⟨pre ++ rest⟩ pre.length vs =
        some ⟨pre ++ vs⟩ := by
  intro rest
  induction rest generalizing pre with
  | nil =>
    intro vs hv
    rw [List.length_nil, List.length_eq_zero] at hv
    subst hv
    simp [GeometryCollection.writeSeqFrom]
  | cons x xs ih =>
    intro vs hv
    cases vs with
    | nil => simp at hv
    | cons v vs' =>
      simp only [List.length_cons, Nat.succ.injEq] at hv
      rw [GeometryCollection.writeSeqFrom]
      simp only [GeometryCollection.indexWrite]
      rw [if_pos (by simp)]
      rw [set_append_cons]
      have h2 := ih (pre ++ [v]) vs' hv
      simp only [List.append_assoc, List.singleton_append,
        List.length_append, List.length_singleton] at h2
      simpa using h2

/-- Element-wise characterization of the embedded slice equality. -/
lemma listEq_iff (eqG : G → G → Bool) :
    ∀ (l₁ l₂ : List G), listEq eqG l₁ l₂ = true ↔
      (l₁.length = l₂.length ∧
        ∀ i x y, l₁.get? i = some x → l₂.get? i = some y → eqG x y = true) := by
  intro l₁
  induction l₁ with
  | nil =>
    intro l₂
    cases l₂ with
    | nil => simp [listEq]
    | cons b bs => simp [listEq]
  | cons a as ih =>
    intro l₂
    cases l₂ with
    | nil => simp [listEq]
    | cons b bs =>
      simp only [listEq, Bool.and_eq_true, ih bs, List.length_cons,
        Nat.succ.injEq]
      constructor
      · rintro ⟨hab, hlen, hrest⟩
        refine ⟨hlen, ?_⟩
        intro i x y hx hy
        cases i with
        | zero =>
          simp only [List.get?_cons_zero, Option.some.injEq] at hx hy
          rw [← hx, ← hy]; exact hab
        | succ n =>
          simp only [List.get?_cons_succ] at hx hy
          exact hrest n x y hx hy
      · rintro ⟨hlen, hall⟩
        refine ⟨hall 0 a b rfl rfl, hlen, ?_⟩
        intro i x y hx hy
        exact hall (i + 1) x y (by simpa using hx) (by simpa using hy)

/-! Claim theorems. -/

/-- C1: construct-from-iterable (the FromIterator impl) produces a collection
whose length equals the number of input elements and whose elements, in
index order, are the converted forms of the input elements in input order. -/
theorem fromIter_spec {G IG : Type} (conv : IG → G) (s : List IG) :
    (GeometryCollection.fromIter conv s).len = s.length ∧
      ∀ i, (GeometryCollection.fromIter conv s).indexRead i =
        (s.get? i).map conv := by
  refine ⟨?_, ?_⟩
  · simp [GeometryCollection.fromIter, GeometryCollection.len]
  · intro i
    simp [GeometryCollection.fromIter, GeometryCollection.indexRead]

/-- C2: owned iteration (into_iter, then repeatedly calling next, here run to
exhaustion by drain) yields exactly the elements of the collection in index
order, and the number of yielded elements equals the length of the
collection before iteration. -/
theorem intoIter_spec {G : Type} (c : GeometryCollection G) :
    c.intoIter.drain = c.geoms ∧ c.intoIter.drain.length = c.len := by
  have h : c.intoIter.drain = c.geoms := IntoIteratorHelper.drain_mk c.geoms
  exact ⟨h, by rw [h]; rfl⟩

/-- C3: traversing a collection of length n with iter_mut and assigning the
replacement values through the successively yielded references leaves the
collection in exactly the state produced by the index-write calls
c[0] = v_0, ..., c[n-1] = v_(n-1). -/
theorem iterMut_refines_indexWrite {G : Type} (c : GeometryCollection G)
    (vs : List G) (h : vs.length = c.len) :
    c.writeSeqFrom 0 vs = some (c.iter_mut.runAssign vs) := by
  have hlen : vs.length = c.geoms.length := h
  rw [GeometryCollection.iter_mut,
    IterMutHelper.runAssign_full [] c.geoms vs hlen]
  have h2 := GeometryCollection.writeSeqFrom_full [] c.geoms vs hlen
  simpa using h2

/-- C3 witness: a concrete two-element run of the refinement theorem. -/
theorem iterMut_refines_indexWrite_witness :
    GeometryCollection.writeSeqFrom (⟨[0, 1]⟩ : GeometryCollection Nat)
        0 [5, 6] =
      some ((GeometryCollection.iter_mut ⟨[0, 1]⟩).runAssign [5, 6]) :=
  iterMut_refines_indexWrite ⟨[0, 1]⟩ [5, 6] (by decide)

/-- C4: after an in-bounds index-write of v at i, index-read at i returns v
and the length is unchanged. -/
theorem indexWrite_spec {G : Type} (c : GeometryCollection G) (i : Nat)
    (v : G) (h : i < c.len) :
    ∃ c2, c.indexWrite i v = some c2 ∧ c2.indexRead i = some v ∧
      c2.len = c.len := by
  have hlt : i < c.geoms.length := h
  refine ⟨⟨c.geoms.set i v⟩, ?_, ?_, ?_⟩
  · simp [GeometryCollection.indexWrite, hlt]
  · simp [GeometryCollection.indexRead, hlt]
  · simp [GeometryCollection.len]

/-- C4 witness: a concrete in-bounds write on a one-element collection. -/
theorem indexWrite_spec_witness :
    ∃ c2, GeometryCollection.indexWrite
        (⟨[0]⟩ : GeometryCollection Nat) 0 7 = some c2 ∧
      c2.indexRead 0 = some 7 ∧ c2.len = GeometryCollection.len ⟨[0]⟩ :=
  indexWrite_spec ⟨[0]⟩ 0 7 (by decide)

/-- C5: index access (read or write) succeeds, i.e. does not hit the
out-of-bounds panic embedded as none, exactly when i < length; it never
returns a default, clamped or wrapped element for i ≥ length. -/
theorem index_inBounds_iff {G : Type} (c : GeometryCollection G) (i : Nat) :
    ((c.indexRead i).isSome = true ↔ i < c.len) ∧
      ∀ v, ((c.indexWrite i v).isSome = true ↔ i < c.len) := by
  refine ⟨?_, ?_⟩
  · by_cases h : i < c.geoms.length
    · simp [GeometryCollection.indexRead, GeometryCollection.len, h,
        List.getElem?_eq_getElem h]
    · simp [GeometryCollection.indexRead, GeometryCollection.len, h,
        List.getElem?_eq_none (Nat.le_of_not_lt h)]
  · intro v
    by_cases h : i < c.geoms.length <;>
      simp [GeometryCollection.indexWrite, GeometryCollection.len, h]

/-- C6: borrowed iteration yields exactly length-many references, the i-th
yielded one referring to the element at index i, and it leaves the borrowed
collection unchanged (iter is a pure function of the collection value and
the final state equals the initial one). -/
theorem iter_spec {G : Type} (c : GeometryCollection G) :
    c.iter.collect = c.geoms ∧ c.iter.collect.length = c.len ∧
      ∀ i, c.iter.collect.get? i = c.geoms.get? i := by
  have h : c.iter.collect = c.geoms := IterHelper.collect_mk c.geoms
  exact ⟨h, by rw [h]; rfl, fun i => by rw [h]⟩

/-- C7: the derived structural equality holds exactly when the lengths agree
and the elements agree index-wise under the element equality eqG of the
tagged geometry type; in particular two two-element collections holding the
same elements in swapped order compare unequal once one swapped pair is
eqG-unequal. -/
theorem eq_spec {G : Type} (eqG : G → G → Bool)
    (a b : GeometryCollection G) :
    (GeometryCollection.eq eqG a b = true ↔
      (a.len = b.len ∧ ∀ i x y, a.indexRead i = some x →
        b.indexRead i = some y → eqG x y = true)) ∧
      ∀ x y : G, eqG x y = false →
        GeometryCollection.eq eqG ⟨[x, y]⟩ ⟨[y, x]⟩ = false := by
  refine ⟨?_, ?_⟩
  · simpa [GeometryCollection.eq, GeometryCollection.len,
      GeometryCollection.indexRead] using listEq_iff eqG a.geoms b.geoms
  · intro x y hxy
    simp [GeometryCollection.eq, listEq, hxy]

/-- C7 witness: with Nat equality as the element equality, the collections
holding 1,2 and 2,1 (same multiset, different order) compare unequal. -/
theorem eq_spec_witness :
    GeometryCollection.eq (fun a b : Nat => a == b)
      ⟨[1, 2]⟩ ⟨[2, 1]⟩ = false :=
  (eq_spec (fun a b : Nat => a == b) ⟨[]⟩ ⟨[]⟩).2 1 2 (by decide)

/-- C8: construct-from-one (the From impl) returns a collection of length 1
whose element at index 0 is the converted form of the input. -/
theorem fromOne_spec {G IG : Type} (conv : IG → G) (v : IG) :
    (GeometryCollection.fromOne conv v).len = 1 ∧
      (GeometryCollection.fromOne conv v).indexRead 0 = some (conv v) :=
  ⟨rfl, rfl⟩

/-- C9: is_empty returns true exactly when the length is 0, and the empty
constructor yields length 0 and is_empty true. -/
theorem is_empty_spec {G : Type} (c : GeometryCollection G) :
    (c.is_empty = true ↔ c.len = 0) ∧
      (GeometryCollection.new : GeometryCollection G).len = 0 ∧
      (GeometryCollection.new : GeometryCollection G).is_empty = true := by
  refine ⟨?_, rfl, rfl⟩
  cases c with
  | mk l => cases l <;> simp [GeometryCollection.is_empty,
      GeometryCollection.len]

/-- C10 counterexample: the claim that clone(c) is always structurally equal
to c fails, because the element equality the collection delegates to is a
Rust PartialEq and need not be reflexive (floating-point NaN coordinates are
the standard instance); with a non-reflexive element equality, modelled here
by the constantly-false comparison, the clone of a one-element collection
compares unequal to the original. -/
theorem clone_eq_counterexample :
    GeometryCollection.eq (fun (_x _y : Nat) => false)
      (GeometryCollection.clone ⟨[0]⟩) ⟨[0]⟩ = false := rfl

/-- C10 amended: clone(c) is the identical collection value (so c itself is
unchanged by cloning), and clone(c) is structurally equal to c whenever the
element equality is reflexive on each element of c. -/
theorem clone_spec {G : Type} (eqG : G → G → Bool)
    (c : GeometryCollection G) (h : ∀ x ∈ c.geoms, eqG x x = true) :
    GeometryCollection.clone c = c ∧
      GeometryCollection.eq eqG (GeometryCollection.clone c) c = true := by
  refine ⟨rfl, ?_⟩
  show listEq eqG c.geoms c.geoms = true
  rw [listEq_iff]
  refine ⟨rfl, ?_⟩
  intro i x y hx hy
  rw [hx] at hy
  cases hy
  exact h x (by
    have := hx
    rw [List.get?_eq_getElem?] at this
    exact List.getElem?_mem this)

/-- C10 witness: a concrete reflexive element equality on a one-element
collection, where the clone compares equal. -/
theorem clone_spec_witness :
    GeometryCollection.clone (⟨[3]⟩ : GeometryCollection Nat) = ⟨[3]⟩ ∧
      GeometryCollection.eq (fun a b : Nat => a == b)
        (GeometryCollection.clone ⟨[3]⟩) ⟨[3]⟩ = true :=
  clone_spec (fun a b : Nat => a == b) ⟨[3]⟩ (by decide)

end GeoTypes
